import Mathlib

/-!
Verification of `type.js` (noxal).

A shallow embedding of the interactive behaviours of `src/type.js`:
the testimonial carousel (`showIdx`, autoplay timers), the theme
manager (`applyTheme`, initialization, the toggle click handler), the
contact-form validator (`validateEmail` and the submit handler), and
the reveal-on-scroll observer callback.

Machine numbers are modelled as `Int`/`Nat`; the JavaScript `%`
operator (remainder truncating toward zero) is `Int.tmod`; JavaScript
truthiness of a nullable string is `jsTruthy`; `String.prototype.trim`
(which strips exactly the WhiteSpace/LineTerminator characters, the
same set as the regex class `\s`) is `jsTrim`.
-/

namespace Noxal

/-- The code points of the character set matched by the JavaScript
regex class `\s` (ECMAScript WhiteSpace ∪ LineTerminator): TAB, LF,
VT, FF, CR, SP, NBSP, U+1680, U+2000–U+200A, U+2028, U+2029, U+202F,
U+205F, U+3000, U+FEFF. -/
def wsCode (n : Nat) : Bool :=
  n == 9 || n == 10 || n == 11 || n == 12 || n == 13 || n == 32 ||
  n == 160 || n == 5760 || (decide (8192 ≤ n) && decide (n ≤ 8202)) ||
  n == 8232 || n == 8233 || n == 8239 || n == 8287 || n == 12288 || n == 65279

/-- JS whitespace (the `\s` class, also the set stripped by `trim`). -/
def jsWhitespace (c : Char) : Bool := wsCode c.toNat

/-- Model of `String.prototype.trim`: strip leading and trailing JS whitespace. -/
def jsTrim (s : String) : String :=
  ⟨((s.data.dropWhile jsWhitespace).reverse.dropWhile jsWhitespace).reverse⟩

/-- JavaScript truthiness of a nullable string (`null` and `""` are falsy). -/
def jsTruthy : Option String → Bool
  | none => false
  | some s => s ≠ ""

/-! ## Testimonials carousel (`type.js` lines 150–175)

```js
function showIdx(i) {
  if (!items.length) return;
  idx = (i + items.length) % items.length;
  ...
}
```

`showIdx n idx i` returns the value stored into `idx` by `showIdx(i)`
when the carousel has `n` items and the current index is `idx`
(unchanged when `n = 0`, the early return). JS `%` on integers is
truncated remainder, `Int.tmod`. -/

def showIdx (n : Nat) (idx : Int) (i : Int) : Int :=
  if n = 0 then idx else (i + n).tmod n

/-- The horizontal offset applied by `showIdx`: `const offset = -idx * 100`. -/
def showIdxOffset (newIdx : Int) : Int := -newIdx * 100

/-! ## Carousel autoplay timers (`type.js` lines 171–173)

```js
let tsInterval = setInterval(() => showIdx(idx + 1), 5000);
[prevBtn, nextBtn, track].forEach(el => el && el.addEventListener('mouseenter',
    () => clearInterval(tsInterval)));
[prevBtn, nextBtn, track].forEach(el => el && el.addEventListener('mouseleave',
    () => tsInterval = setInterval(() => showIdx(idx + 1), 5000)));
```

All three control elements share the single variable `tsInterval`.
`mouseenter` clears whatever handle `tsInterval` currently holds;
`mouseleave` schedules a fresh interval and overwrites `tsInterval`
with its handle, without clearing the previous one. We model the set
of live interval handles as a list of distinct `Nat` ids, `tsInterval`
as the id currently stored in the variable, and `next` as the id the
host will hand out for the next `setInterval` call. -/

inductive HoverEv where
  | enter
  | leave
deriving DecidableEq, Repr

structure TimerState where
  active : List Nat
  tsInterval : Nat
  next : Nat
deriving DecidableEq, Repr

/-- State right after `let tsInterval = setInterval(...)` on line 171:
one interval (id 0) is live and tracked. -/
def timersInit : TimerState := ⟨[0], 0, 1⟩

/-- One mouse event on any of the three carousel controls. -/
def timerStep (s : TimerState) : HoverEv → TimerState
  | .enter => { s with active := s.active.erase s.tsInterval }
  | .leave => { active := s.next :: s.active, tsInterval := s.next, next := s.next + 1 }

/-- Run a sequence of hover events from a state. -/
def timerRun (s : TimerState) : List HoverEv → TimerState
  | [] => s
  | e :: es => timerRun (timerStep s e) es

/-- Hover sequences in which every `mouseleave` is immediately preceded
by a `mouseenter` (the pattern produced by hovering a single flat
region). `prev` is the previous event, initially `.leave` standing for
"no enter seen yet". -/
def whFrom : HoverEv → List HoverEv → Bool
  | _, [] => true
  | prev, e :: rest => (e == .enter || prev == .enter) && whFrom e rest

def wellHovered (es : List HoverEv) : Bool := whFrom .leave es

/-! ## Reveal-on-scroll observer (`type.js` lines 68–76)

```js
const observer = new IntersectionObserver((entries) => {
  for (const ent of entries) {
    if (ent.isIntersecting) {
      ent.target.classList.add('is-visible');
      observer.unobserve(ent.target);
    }
  }
}, { threshold: 0.12 });
```

Per marked element: `isVisible` is whether the `is-visible` class is
present, `observed` whether the observer still watches it. An event is
the `isIntersecting` flag of a delivered entry (`true` when the
element's intersection ratio crosses the 0.12 threshold); entries are
delivered only while the element is observed. -/

structure RevealElem where
  isVisible : Bool
  observed : Bool
deriving DecidableEq, Repr

def revealInit : RevealElem := ⟨false, true⟩

def revealStep (s : RevealElem) (isIntersecting : Bool) : RevealElem :=
  if s.observed && isIntersecting then ⟨true, false⟩ else s

def revealRun (s : RevealElem) : List Bool → RevealElem
  | [] => s
  | e :: es => revealRun (revealStep s e) es

/-! ## Theme manager (`type.js` lines 87–112)

```js
const applyTheme = (mode) => {
  if (mode === 'dark') { body.classList.add('theme-dark'); body.classList.remove('theme-light'); }
  else { body.classList.add('theme-light'); body.classList.remove('theme-dark'); }
  try { localStorage.setItem(themeKey, mode); } catch (e) { /* ignore */ }
  if (darkToggle) darkToggle.innerHTML = mode === 'dark' ? '<i .. fa-sun ..>' : '<i .. fa-moon ..>';
};
const stored = ...localStorage.getItem(themeKey)...;
if (stored) applyTheme(stored);
else { const prefersDark = ...; applyTheme(prefersDark ? 'dark' : 'light'); }
darkToggle.addEventListener('click', () => {
  const isDark = body.classList.contains('theme-dark');
  applyTheme(isDark ? 'light' : 'dark');
});
```

The state tracks the two body classes, the persisted value under the
storage key, and the toggle icon. Storage is modelled as available (the
`try`/`catch` swallows failures; the claims below are about the
behaviour when persistence succeeds). -/

structure ThemeState where
  darkClass : Bool
  lightClass : Bool
  stored : Option String
  icon : String
deriving DecidableEq, Repr

def applyTheme (mode : String) (_s : ThemeState) : ThemeState :=
  if mode = "dark" then
    { darkClass := true, lightClass := false, stored := some mode, icon := "fa-sun" }
  else
    { darkClass := false, lightClass := true, stored := some mode, icon := "fa-moon" }

/-- Theme initialization (lines 102–108): `stored` is what
`localStorage.getItem` returned (`none` = `null`), `prefersDark` the
system preference. `if (stored)` is JS truthiness, so the empty string
falls through to the system-preference branch. -/
def themeInit (stored : Option String) (prefersDark : Bool) (s : ThemeState) : ThemeState :=
  if jsTruthy stored then applyTheme (stored.getD "") s
  else applyTheme (if prefersDark then "dark" else "light") s

/-- The `darkToggle` click handler (lines 109–112). -/
def darkToggleClick (s : ThemeState) : ThemeState :=
  applyTheme (if s.darkClass then "light" else "dark") s

/-! ## Contact form validation (`type.js` lines 114–148)

```js
function validateEmail(email) {
  const re = /^[^\s@]+@[^\s@]+\.[^\s@]+$/;
  return re.test(String(email || '').toLowerCase());
}
```

The character class `[^\s@]` is `emailChar`. The anchored regex
`^[^\s@]+@[^\s@]+\.[^\s@]+$` is implemented structurally:
`emailMatch` consumes the nonempty run `[^\s@]+` (each step either
closes the run at an `@`, handing the rest to `domMatch`, or extends
it), `domMatch` consumes `[^\s@]+` up to a literal `.` (`dotThen`),
and `plusMatch` is a final `[^\s@]+$`. The disjunctions reproduce the
regex engine's choice points (a `.` is itself an `[^\s@]` character,
so the split at the dot is a genuine search). `toLowerCase` is
modelled as per-character `Char.toLower` (basic-latin lowering; no
character's lowering crosses the `@`/`.`/whitespace classes). -/

def emailChar (c : Char) : Bool := !jsWhitespace c && c.toNat != 64

/-- Regex piece `[^\s@]+$`: a nonempty run of `emailChar` to the end. -/
def plusMatch (l : List Char) : Bool := !l.isEmpty && l.all emailChar

/-- Regex piece `\.[^\s@]+$`: a literal dot, then a nonempty run to the end. -/
def dotThen : List Char → Bool
  | [] => false
  | c :: cs => c == '.' && plusMatch cs

/-- Regex piece `[^\s@]+\.[^\s@]+$`: the domain part of the regex. -/
def domMatch : List Char → Bool
  | [] => false
  | c :: cs => emailChar c && (dotThen cs || domMatch cs)

/-- Regex piece `@[^\s@]+\.[^\s@]+$`: the `@` and everything after it. -/
def afterAt : List Char → Bool
  | [] => false
  | c :: cs => c == '@' && domMatch cs

/-- The full anchored regex `^[^\s@]+@[^\s@]+\.[^\s@]+$` on a character list. -/
def emailMatch : List Char → Bool
  | [] => false
  | c :: cs => emailChar c && (afterAt cs || emailMatch cs)

def validateEmail (email : String) : Bool :=
  emailMatch (email.data.map Char.toLower)

/-- Error message of rule 1 (line 127). -/
def nameError : String := "Please enter your name."

/-- Error message of rule 2 (line 128). -/
def emailError : String := "Please enter a valid email."

/-- Error message of rule 3 (line 129). -/
def lengthError : String := "Message must be at least 10 characters."

/-- Lines 127–129 of the submit handler, on the already-extracted
(trimmed) `data` object: the first failing rule's message, `none` when
all three rules pass.

```js
if (!data.name) return showFormError('Please enter your name.');
if (!validateEmail(data.email)) return showFormError('Please enter a valid email.');
if (!data.message || data.message.length < 10) return showFormError('Message must be at least 10 characters.');
```
-/
def formValidate (name email message : String) : Option String :=
  if name = "" then some nameError
  else if !validateEmail email then some emailError
  else if message = "" || message.length < 10 then some lengthError
  else none

/-- The page state the submit handler touches: the three form fields
and the `#formResponse` element's text and colour. -/
structure FormPage where
  name : String
  email : String
  message : String
  respText : String
  respColor : String
deriving DecidableEq, Repr

/-- Field extraction (lines 121–125): each value is trimmed. -/
def extractData (p : FormPage) : String × String × String :=
  (jsTrim p.name, jsTrim p.email, jsTrim p.message)

/-- Error colour set by `showFormError` (line 142). -/
def errorColor : String := "#d9534f"

/-- Colour used on the success path (line 132): the computed value of
`--accent-600`, with this fallback. -/
def accentColor : String := "#0b77d1"

def sendingText : String := "Sending…"

def thanksText : String := "Thank you! Your message has been received. We will contact you shortly."

/-- The page state when the submit handler returns (before any timer
fires): on a validation failure `showFormError` writes the message in
the error colour and the fields are untouched; on success the
transient "sending" text is shown. -/
def submitNow (p : FormPage) : FormPage :=
  match formValidate (jsTrim p.name) (jsTrim p.email) (jsTrim p.message) with
  | some msg => { p with respText := msg, respColor := errorColor }
  | none => { p with respText := sendingText, respColor := accentColor }

/-- The timer scheduled by the handler: `none` on a validation
failure; on success, the 900 ms delay together with the state after
the callback runs (confirmation text, `form.reset()` clearing the
fields). -/
def submitTimer (p : FormPage) : Option (Nat × FormPage) :=
  match formValidate (jsTrim p.name) (jsTrim p.email) (jsTrim p.message) with
  | some _ => none
  | none => some (900,
      { name := "", email := "", message := "",
        respText := thanksText, respColor := accentColor })

/-! ## Specification-shaped definitions

These definitions follow the words of the specification (not the
source); the refinement theorems below compare them with the embedded
code. -/

/-- Theme initialization as the spec phrases it: an ordered list of
providers where the first NON-NULL result wins — a present storage
value is always applied, even the empty string. -/
def themeInitFirstNonNull (stored : Option String) (prefersDark : Bool)
    (s : ThemeState) : ThemeState :=
  match stored with
  | some v => applyTheme v s
  | none => applyTheme (if prefersDark then "dark" else "light") s

/-- The shape the spec ascribes to `validateEmail`, literally: exactly
one `@` (a split `l ++ '@' :: r` with no `@` in `l` or `r`) with
non-empty text on both sides, at least one `.` after the `@` with
non-empty text after it, and no whitespace anywhere. -/
def emailShapeClaim (s : List Char) : Prop :=
  ∃ l r x y : List Char, s = l ++ '@' :: r ∧ l ≠ [] ∧ r ≠ [] ∧
    '@' ∉ l ∧ '@' ∉ r ∧ r = x ++ '.' :: y ∧ y ≠ [] ∧
    ∀ c ∈ s, jsWhitespace c = false

/-- The amended shape: additionally the `.` must have non-empty text
strictly between the `@` and itself (`x ≠ []`), which is what the
regex piece `@[^\s@]+\.` requires. -/
def emailShapeAmended (s : List Char) : Prop :=
  ∃ l r x y : List Char, s = l ++ '@' :: r ∧ l ≠ [] ∧ r ≠ [] ∧
    '@' ∉ l ∧ '@' ∉ r ∧ r = x ++ '.' :: y ∧ x ≠ [] ∧ y ≠ [] ∧
    ∀ c ∈ s, jsWhitespace c = false

/-- A fixed page start state used by the concrete counterexamples and
witnesses: light theme displayed, nothing persisted yet. -/
def themeS0 : ThemeState := ⟨false, true, none, "fa-moon"⟩

/-! ## Helper lemmas: JS truncated remainder -/

theorem neg_lt_tmod (i : Int) (n : Nat) (h : 1 ≤ n) : -(n : Int) < i.tmod n := by
  cases i with
  | ofNat m =>
      have h0 : (0 : Int) ≤ Int.ofNat m := Int.ofNat_nonneg m
      have := Int.tmod_nonneg (n : Int) h0
      omega
  | negSucc m =>
      have hd : Int.tmod (Int.negSucc m) (n : Int) = -(((m + 1) % n : Nat) : Int) := rfl
      have hlt : (m + 1) % n < n := Nat.mod_lt _ (by omega)
      rw [hd]
      omega

/-- For `i ≥ -n` the shifted truncated remainder `(i + n) tmod n` that
`showIdx` computes agrees with the Euclidean remainder. -/
theorem tmodAddCancel (n : Nat) (i : Int) (h1 : 1 ≤ n) (h2 : -(n : Int) ≤ i) :
    (i + n).tmod n = i % (n : Int) := by
  have h0 : (0 : Int) ≤ i + n := by omega
  rw [Int.tmod_eq_emod h0 (by omega : (0 : Int) ≤ (n : Int)), Int.add_emod_self]

/-- The double-remainder normalization `((i % n) + n) % n` (JS `%`,
i.e. `tmod`) equals the Euclidean remainder for every integer `i`. -/
theorem tmodClaimFormula (n : Nat) (i : Int) (h1 : 1 ≤ n) :
    ((i.tmod n) + n).tmod n = i % (n : Int) := by
  have hlow := neg_lt_tmod i n h1
  have hup : i.tmod n < n := Int.tmod_lt_of_pos i (by omega)
  have h0 : (0 : Int) ≤ i.tmod n + n := by omega
  rw [Int.tmod_eq_emod h0 (by omega : (0 : Int) ≤ (n : Int)), Int.add_emod_self]
  have ht := Int.tmod_add_tdiv i n
  have h2 : i.tmod n = i + (n : Int) * (-(i.tdiv n)) := by
    rw [Int.mul_neg]
    omega
  rw [h2, Int.add_mul_emod_self_left]

/-! ## Helper lemmas: characters and `toLowerCase` -/

theorem toNat_toLower (c : Char) :
    (Char.toLower c).toNat =
      if 65 ≤ c.toNat ∧ c.toNat ≤ 90 then c.toNat + 32 else c.toNat := by
  rw [Char.toLower]
  split
  · next h =>
      have hv : (c.toNat + 32).isValidChar := Or.inl (by omega)
      rw [Char.ofNat, dif_pos hv]
      rfl
  · rfl

theorem wsCode_shift (n : Nat) (h1 : 65 ≤ n) (h2 : n ≤ 90) :
    wsCode (n + 32) = false ∧ wsCode n = false := by
  simp [wsCode]
  omega

theorem char_toNat_inj {a b : Char} (h : a.toNat = b.toNat) : a = b := by
  have ha := Char.ofNat_toNat a
  have hb := Char.ofNat_toNat b
  rw [← ha, ← hb, h]

theorem emailChar_toLower (c : Char) : emailChar (Char.toLower c) = emailChar c := by
  unfold emailChar jsWhitespace
  rw [toNat_toLower]
  split
  · next h =>
      obtain ⟨hw1, hw2⟩ := wsCode_shift c.toNat h.1 h.2
      have h64 : ((c.toNat + 32) != 64) = true := by
        simp only [bne_iff_ne, ne_eq]
        omega
      have h64b : ((c.toNat) != 64) = true := by
        simp only [bne_iff_ne, ne_eq]
        omega
      rw [hw1, hw2, h64, h64b]
  · rfl

theorem toLower_eq_iff (c d : Char) (hd : d.toNat < 65) :
    Char.toLower c = d ↔ c = d := by
  constructor
  · intro h
    have h2 := congrArg Char.toNat h
    rw [toNat_toLower] at h2
    split at h2
    · next hr => omega
    · exact char_toNat_inj h2
  · intro h
    rw [h]
    have h2 : (Char.toLower d).toNat = d.toNat := by
      rw [toNat_toLower, if_neg (by omega)]
    exact char_toNat_inj h2

theorem toLower_beq_dot (c : Char) : (Char.toLower c == '.') = (c == '.') := by
  by_cases h : c = '.'
  · subst h
    decide
  · have h2 : Char.toLower c ≠ '.' :=
      fun hh => h ((toLower_eq_iff c '.' (by decide)).mp hh)
    simp [h, h2]

theorem toLower_beq_at (c : Char) : (Char.toLower c == '@') = (c == '@') := by
  by_cases h : c = '@'
  · subst h
    decide
  · have h2 : Char.toLower c ≠ '@' :=
      fun hh => h ((toLower_eq_iff c '@' (by decide)).mp hh)
    simp [h, h2]

/-! ## Helper lemmas: the email regex matcher -/

theorem all_emailChar_map (l : List Char) :
    (l.map Char.toLower).all emailChar = l.all emailChar := by
  induction l with
  | nil => rfl
  | cons c cs ih => simp only [List.map_cons, List.all_cons, emailChar_toLower, ih]

theorem plusMatch_map (l : List Char) : plusMatch (l.map Char.toLower) = plusMatch l := by
  cases l with
  | nil => rfl
  | cons c cs =>
      unfold plusMatch
      simp only [List.map_cons, List.isEmpty_cons, List.all_cons, emailChar_toLower,
        all_emailChar_map]

theorem dotThen_map (l : List Char) : dotThen (l.map Char.toLower) = dotThen l := by
  cases l with
  | nil => rfl
  | cons c cs => simp only [List.map_cons, dotThen, toLower_beq_dot, plusMatch_map]

theorem domMatch_map (l : List Char) : domMatch (l.map Char.toLower) = domMatch l := by
  induction l with
  | nil => rfl
  | cons c cs ih =>
      simp only [List.map_cons, domMatch, emailChar_toLower, dotThen_map, ih]

theorem afterAt_map (l : List Char) : afterAt (l.map Char.toLower) = afterAt l := by
  cases l with
  | nil => rfl
  | cons c cs => simp only [List.map_cons, afterAt, toLower_beq_at, domMatch_map]

theorem emailMatch_map (l : List Char) : emailMatch (l.map Char.toLower) = emailMatch l := by
  induction l with
  | nil => rfl
  | cons c cs ih =>
      simp only [List.map_cons, emailMatch, emailChar_toLower, afterAt_map, ih]

theorem plusMatch_iff (l : List Char) :
    plusMatch l = true ↔ l ≠ [] ∧ ∀ c ∈ l, emailChar c = true := by
  unfold plusMatch
  simp [List.all_eq_true]

theorem dotThen_iff (l : List Char) :
    dotThen l = true ↔ ∃ y, l = '.' :: y ∧ y ≠ [] ∧ ∀ c ∈ y, emailChar c = true := by
  cases l with
  | nil => simp [dotThen]
  | cons c cs =>
      simp only [dotThen, Bool.and_eq_true, beq_iff_eq, plusMatch_iff]
      constructor
      · rintro ⟨rfl, h1, h2⟩
        exact ⟨cs, rfl, h1, h2⟩
      · rintro ⟨y, heq, h1, h2⟩
        rw [List.cons.injEq] at heq
        obtain ⟨rfl, rfl⟩ := heq
        exact ⟨rfl, h1, h2⟩

theorem domMatch_iff (l : List Char) :
    domMatch l = true ↔ ∃ x y, l = x ++ '.' :: y ∧ x ≠ [] ∧ y ≠ [] ∧
      (∀ c ∈ x, emailChar c = true) ∧ ∀ c ∈ y, emailChar c = true := by
  induction l with
  | nil =>
      simp only [domMatch, Bool.false_eq_true, false_iff]
      rintro ⟨x, y, heq, -, -, -, -⟩
      exact List.append_ne_nil_of_right_ne_nil x (List.cons_ne_nil _ _) heq.symm
  | cons c cs ih =>
      simp only [domMatch, Bool.and_eq_true, Bool.or_eq_true, dotThen_iff, ih]
      constructor
      · rintro ⟨hc, h | h⟩
        · obtain ⟨y, rfl, hy, hall⟩ := h
          exact ⟨[c], y, rfl, List.cons_ne_nil _ _, hy, by simpa using hc, hall⟩
        · obtain ⟨x, y, rfl, hx, hy, hxall, hyall⟩ := h
          refine ⟨c :: x, y, rfl, List.cons_ne_nil _ _, hy, ?_, hyall⟩
          intro d hd
          rcases List.mem_cons.mp hd with rfl | hd
          · exact hc
          · exact hxall d hd
      · rintro ⟨x, y, heq, hx, hy, hxall, hyall⟩
        cases x with
        | nil => exact absurd rfl hx
        | cons a x2 =>
            rw [List.cons_append, List.cons.injEq] at heq
            obtain ⟨rfl, rfl⟩ := heq
            refine ⟨hxall c (List.mem_cons_self c x2), ?_⟩
            cases x2 with
            | nil => exact Or.inl ⟨y, rfl, hy, hyall⟩
            | cons b x3 =>
                refine Or.inr ⟨b :: x3, y, rfl, List.cons_ne_nil _ _, hy, ?_, hyall⟩
                intro d hd
                exact hxall d (List.mem_cons_of_mem c hd)

theorem emailMatch_iff (s : List Char) :
    emailMatch s = true ↔ ∃ l r, s = l ++ '@' :: r ∧ l ≠ [] ∧
      (∀ c ∈ l, emailChar c = true) ∧ domMatch r = true := by
  induction s with
  | nil =>
      simp only [emailMatch, Bool.false_eq_true, false_iff]
      rintro ⟨l, r, heq, -, -, -⟩
      exact List.append_ne_nil_of_right_ne_nil l (List.cons_ne_nil _ _) heq.symm
  | cons c cs ih =>
      simp only [emailMatch, Bool.and_eq_true, Bool.or_eq_true, ih]
      constructor
      · rintro ⟨hc, h | h⟩
        · cases cs with
          | nil => simp [afterAt] at h
          | cons a cs2 =>
              simp only [afterAt, Bool.and_eq_true, beq_iff_eq] at h
              obtain ⟨rfl, hdom⟩ := h
              exact ⟨[c], cs2, rfl, List.cons_ne_nil _ _, by simpa using hc, hdom⟩
        · obtain ⟨l, r, rfl, hl, hlall, hdom⟩ := h
          refine ⟨c :: l, r, rfl, List.cons_ne_nil _ _, ?_, hdom⟩
          intro d hd
          rcases List.mem_cons.mp hd with rfl | hd
          · exact hc
          · exact hlall d hd
      · rintro ⟨l, r, heq, hl, hlall, hdom⟩
        cases l with
        | nil => exact absurd rfl hl
        | cons a l2 =>
            rw [List.cons_append, List.cons.injEq] at heq
            obtain ⟨rfl, rfl⟩ := heq
            refine ⟨hlall c (List.mem_cons_self c l2), ?_⟩
            cases l2 with
            | nil =>
                left
                simp only [List.nil_append, afterAt, beq_self_eq_true, Bool.true_and]
                exact hdom
            | cons b l3 =>
                refine Or.inr ⟨b :: l3, r, rfl, List.cons_ne_nil _ _, ?_, hdom⟩
                intro d hd
                exact hlall d (List.mem_cons_of_mem c hd)

theorem emailChar_iff (c : Char) :
    emailChar c = true ↔ jsWhitespace c = false ∧ c ≠ '@' := by
  unfold emailChar
  simp only [Bool.and_eq_true, Bool.not_eq_true', bne_iff_ne, ne_eq]
  constructor
  · rintro ⟨hw, hn⟩
    exact ⟨hw, fun hc => hn (by rw [hc]; rfl)⟩
  · rintro ⟨hw, hn⟩
    exact ⟨hw, fun h64 => hn (char_toNat_inj (by rw [h64]; rfl))⟩

theorem emailMatch_iff_shape (s : List Char) :
    emailMatch s = true ↔ emailShapeAmended s := by
  rw [emailMatch_iff]
  constructor
  · rintro ⟨l, r, rfl, hl, hlall, hdom⟩
    obtain ⟨x, y, rfl, hx, hy, hxall, hyall⟩ := (domMatch_iff _).mp hdom
    refine ⟨l, _, x, y, rfl, hl, by simp, ?_, ?_, rfl, hx, hy, ?_⟩
    · intro hmem
      exact ((emailChar_iff _).mp (hlall _ hmem)).2 rfl
    · intro hmem
      rcases List.mem_append.mp hmem with h | h
      · exact ((emailChar_iff _).mp (hxall _ h)).2 rfl
      · rcases List.mem_cons.mp h with h | h
        · exact absurd h (by decide)
        · exact ((emailChar_iff _).mp (hyall _ h)).2 rfl
    · intro c hc
      rcases List.mem_append.mp hc with h | h
      · exact ((emailChar_iff _).mp (hlall _ h)).1
      · rcases List.mem_cons.mp h with rfl | h
        · decide
        · rcases List.mem_append.mp h with h | h
          · exact ((emailChar_iff _).mp (hxall _ h)).1
          · rcases List.mem_cons.mp h with rfl | h
            · decide
            · exact ((emailChar_iff _).mp (hyall _ h)).1
  · rintro ⟨l, r, x, y, rfl, hl, hr, hal, har, hrxy, hx, hy, hws⟩
    subst hrxy
    refine ⟨l, x ++ '.' :: y, rfl, hl, ?_, (domMatch_iff _).mpr ⟨x, y, rfl, hx, hy, ?_, ?_⟩⟩
    · intro c hc
      exact (emailChar_iff c).mpr
        ⟨hws c (List.mem_append.mpr (Or.inl hc)), fun h => hal (h ▸ hc)⟩
    · intro c hc
      refine (emailChar_iff c).mpr ⟨hws c ?_, fun h => har ?_⟩
      · exact List.mem_append.mpr
          (Or.inr (List.mem_cons_of_mem _ (List.mem_append.mpr (Or.inl hc))))
      · exact List.mem_append.mpr (Or.inl (h ▸ hc))
    · intro c hc
      refine (emailChar_iff c).mpr ⟨hws c ?_, fun h => har ?_⟩
      · exact List.mem_append.mpr
          (Or.inr (List.mem_cons_of_mem _
            (List.mem_append.mpr (Or.inr (List.mem_cons_of_mem _ hc)))))
      · exact List.mem_append.mpr (Or.inr (List.mem_cons_of_mem _ (h ▸ hc)))

/-! ## Helper lemmas: timers, reveal, validator -/

theorem timers_inv (es : List HoverEv) : ∀ (prev : HoverEv) (s : TimerState),
    whFrom prev es = true →
    s.active = [] ∨ s.active = [s.tsInterval] →
    (prev = HoverEv.enter → s.active = []) →
    (timerRun s es).active = [] ∨ (timerRun s es).active = [(timerRun s es).tsInterval] := by
  induction es with
  | nil =>
      intro prev s _ hinv _
      exact hinv
  | cons e rest ih =>
      intro prev s hwh hinv henter
      rw [whFrom, Bool.and_eq_true, Bool.or_eq_true] at hwh
      obtain ⟨hfirst, hrest⟩ := hwh
      show (timerRun (timerStep s e) rest).active = [] ∨ _
      cases e with
      | enter =>
          refine ih HoverEv.enter (timerStep s HoverEv.enter) hrest ?_ ?_
          · rcases hinv with h | h <;> left <;> simp [timerStep, h]
          · intro _
            rcases hinv with h | h <;> simp [timerStep, h]
      | leave =>
          have hprev : prev = HoverEv.enter := by
            rcases hfirst with h | h
            · exact absurd h (by decide)
            · simpa using h
          have hempty : s.active = [] := henter hprev
          refine ih HoverEv.leave (timerStep s HoverEv.leave) hrest ?_ ?_
          · right
            simp [timerStep, hempty]
          · intro h
            exact absurd h (by decide)

theorem reveal_frozen (es : List Bool) : revealRun ⟨true, false⟩ es = ⟨true, false⟩ := by
  induction es with
  | nil => rfl
  | cons e rest ih => exact ih

theorem reveal_run_eq (es : List Bool) :
    revealRun revealInit es = if true ∈ es then ⟨true, false⟩ else revealInit := by
  induction es with
  | nil => rfl
  | cons e rest ih =>
      cases e with
      | true =>
          show revealRun (revealStep revealInit true) rest = _
          have h1 : revealStep revealInit true = ⟨true, false⟩ := rfl
          rw [h1, reveal_frozen, if_pos (List.mem_cons_self true rest)]
      | false =>
          show revealRun (revealStep revealInit false) rest = _
          have h1 : revealStep revealInit false = revealInit := rfl
          rw [h1, ih]
          by_cases h : true ∈ rest
          · rw [if_pos h, if_pos (List.mem_cons_of_mem false h)]
          · rw [if_neg h, if_neg (by simp [h])]

theorem reveal_run_append (s : RevealElem) (es es2 : List Bool) :
    revealRun s (es ++ es2) = revealRun (revealRun s es) es2 := by
  induction es generalizing s with
  | nil => rfl
  | cons e rest ih => exact ih (revealStep s e)

theorem formValidate_spec (n e m : String) :
    (n = "" → formValidate n e m = some nameError) ∧
    (n ≠ "" → validateEmail e = false → formValidate n e m = some emailError) ∧
    (n ≠ "" → validateEmail e = true → m.length < 10 →
      formValidate n e m = some lengthError) ∧
    (n ≠ "" → validateEmail e = true → 10 ≤ m.length → formValidate n e m = none) := by
  refine ⟨fun h1 => ?_, fun h1 h2 => ?_, fun h1 h2 h3 => ?_, fun h1 h2 h3 => ?_⟩
  · simp [formValidate, h1]
  · simp [formValidate, h1, h2]
  · simp [formValidate, h1, h2]
    omega
  · have hm : m ≠ "" := by
      intro hm
      rw [hm] at h3
      exact absurd h3 (by decide)
    have h4 : ¬(m.length < 10) := by omega
    simp [formValidate, h1, h2, hm, h4]

/-! ## Claims -/

/-- C1, counterexample to the claim as stated: with `N = 3` items and
`i = -5`, `showIdx` stores `(-5 + 3) % 3 = -2` (JS `%` keeps the
dividend's sign), not the normalized `((-5 % 3) + 3) % 3 = 1`, and the
resulting index is not in `[0, N)`. -/
theorem showIdx_claim_cex :
    showIdx 3 0 (-5) = -2 ∧
    ((Int.tmod (-5) 3) + 3).tmod 3 = 1 ∧
    showIdx 3 0 (-5) ≠ ((Int.tmod (-5) 3) + 3).tmod 3 ∧
    ¬(0 ≤ showIdx 3 0 (-5)) := by decide

/-- C1, amended: for every carousel with `N ≥ 1` items and every
integer `i ≥ -N` (which covers all calls the page makes: autoplay and
the prev/next buttons pass `idx ± 1` with `idx ∈ [0, N)`), `showIdx(i)`
sets the current index to `((i % N) + N) % N`, normalizing `i` into
`[0, N)`. -/
theorem showIdx_normalizes (n : Nat) (idx i : Int)
    (h1 : 1 ≤ n) (h2 : -(n : Int) ≤ i) :
    showIdx n idx i = ((i.tmod n) + n).tmod n ∧
    0 ≤ showIdx n idx i ∧ showIdx n idx i < n := by
  have hne : n ≠ 0 := by omega
  have he1 : (i + n).tmod n = i % (n : Int) := tmodAddCancel n i h1 h2
  have he2 : ((i.tmod n) + n).tmod n = i % (n : Int) := tmodClaimFormula n i h1
  unfold showIdx
  rw [if_neg hne, he1, he2]
  exact ⟨rfl, Int.emod_nonneg i (by omega), Int.emod_lt_of_pos i (by omega)⟩

theorem showIdx_normalizes_witness :
    showIdx 3 0 (-1) = ((Int.tmod (-1) 3) + 3).tmod 3 ∧
    0 ≤ showIdx 3 0 (-1) ∧ showIdx 3 0 (-1) < 3 :=
  showIdx_normalizes 3 0 (-1) (by decide) (by decide)

/-- C2, counterexample to the claim as stated: the `mouseleave` handler
only overwrites `tsInterval` and never calls `clearInterval`, so after
`mouseenter` on the track, `mouseleave` from a nested control and then
`mouseleave` from the track (two consecutive leaves, as child controls
inside the track produce), BOTH interval handles 1 and 2 are live —
two concurrent timers. -/
theorem timer_leak_cex :
    (timerRun timersInit [HoverEv.enter, HoverEv.leave, HoverEv.leave]).active = [2, 1] ∧
    (timerRun timersInit [HoverEv.enter, HoverEv.leave, HoverEv.leave]).active.length = 2 := by
  decide

/-- C2, amended: in every event sequence in which each `mouseleave` is
immediately preceded by a `mouseenter` (hovering a single flat region
produces exactly such sequences), at most one autoplay timer handle is
live at any time — the preceding `mouseenter`'s `clearInterval`
cancels the tracked timer before `mouseleave` creates the new one.
Quantifying over all such sequences covers every prefix, i.e. every
moment in time. -/
theorem timers_atMostOne_of_wellHovered (es : List HoverEv)
    (h : wellHovered es = true) :
    (timerRun timersInit es).active.length ≤ 1 := by
  have hinv := timers_inv es HoverEv.leave timersInit h (Or.inr rfl) (fun hc => nomatch hc)
  rcases hinv with h1 | h1 <;> rw [h1] <;> simp

theorem timers_atMostOne_witness :
    (timerRun timersInit
      [HoverEv.enter, HoverEv.leave, HoverEv.enter, HoverEv.leave]).active.length ≤ 1 :=
  timers_atMostOne_of_wellHovered
    [HoverEv.enter, HoverEv.leave, HoverEv.enter, HoverEv.leave] (by decide)

/-- C3: the validator checks name, then email, then message length, in
that order, and the first failing rule short-circuits with exactly its
own message; with an empty (trimmed) name the result is the name error
for ALL email and message values, so no later rule is evaluated. -/
theorem formValidate_order (name email message : String) :
    (jsTrim name = "" →
      formValidate (jsTrim name) (jsTrim email) (jsTrim message) = some nameError) ∧
    (jsTrim name ≠ "" → validateEmail (jsTrim email) = false →
      formValidate (jsTrim name) (jsTrim email) (jsTrim message) = some emailError) ∧
    (jsTrim name ≠ "" → validateEmail (jsTrim email) = true →
      (jsTrim message).length < 10 →
      formValidate (jsTrim name) (jsTrim email) (jsTrim message) = some lengthError) ∧
    (jsTrim name ≠ "" → validateEmail (jsTrim email) = true →
      10 ≤ (jsTrim message).length →
      formValidate (jsTrim name) (jsTrim email) (jsTrim message) = none) :=
  formValidate_spec (jsTrim name) (jsTrim email) (jsTrim message)

theorem formValidate_order_witness :
    formValidate (jsTrim "  ") (jsTrim "bad") (jsTrim "hi") = some nameError ∧
    formValidate (jsTrim "Bob") (jsTrim "bad") (jsTrim "hi") = some emailError :=
  ⟨(formValidate_order "  " "bad" "hi").1 (by decide),
   (formValidate_order "Bob" "bad" "hi").2.1 (by decide) (by decide)⟩

/-- C4: with a non-empty trimmed name and a valid email, a message of
trimmed length exactly 9 is rejected with the length error and one of
trimmed length exactly 10 passes (the handler proceeds to the success
path). -/
theorem message_length_boundary (name email message : String)
    (hn : jsTrim name ≠ "") (he : validateEmail (jsTrim email) = true) :
    ((jsTrim message).length = 9 →
      formValidate (jsTrim name) (jsTrim email) (jsTrim message) = some lengthError) ∧
    ((jsTrim message).length = 10 →
      formValidate (jsTrim name) (jsTrim email) (jsTrim message) = none) :=
  ⟨fun h9 =>
    (formValidate_spec (jsTrim name) (jsTrim email) (jsTrim message)).2.2.1
      hn he (by omega),
   fun h10 =>
    (formValidate_spec (jsTrim name) (jsTrim email) (jsTrim message)).2.2.2
      hn he (by omega)⟩

theorem message_length_boundary_witness :
    formValidate (jsTrim "Bob") (jsTrim "bob@example.com") (jsTrim "abcdefghi") =
      some lengthError ∧
    formValidate (jsTrim "Bob") (jsTrim "bob@example.com") (jsTrim "abcdefghij") = none :=
  ⟨(message_length_boundary "Bob" "bob@example.com" "abcdefghi"
      (by decide) (by decide)).1 (by decide),
   (message_length_boundary "Bob" "bob@example.com" "abcdefghij"
      (by decide) (by decide)).2 (by decide)⟩

/-- C5, counterexample to the claim as stated: the string `"a@.c"`
satisfies every condition the claim lists (exactly one `@` with
non-empty text on both sides, a `.` after the `@` with non-empty text
after it, no whitespace), yet `validateEmail` rejects it: the regex
piece `@[^\\s@]+\\.` also demands non-empty text between the `@` and
the `.`. -/
theorem validateEmail_claim_cex :
    validateEmail "a@.c" = false ∧ emailShapeClaim ("a@.c").data := by
  refine ⟨by decide, ⟨['a'], ['.', 'c'], [], ['c'], ?_, ?_, ?_, ?_, ?_, ?_, ?_, ?_⟩⟩
  all_goals decide

/-- C5, amended: `validateEmail` accepts a string if and only if it has
exactly one `@` with non-empty text on both sides, at least one `.`
after the `@` with non-empty text strictly between the `@` and that
`.` and non-empty text after it, and no whitespace anywhere. -/
theorem validateEmail_iff_shape (email : String) :
    validateEmail email = true ↔ emailShapeAmended email.data := by
  rw [validateEmail, emailMatch_map, emailMatch_iff_shape]

/-- C6: from any proper body state (exactly one of the two theme
classes), toggling twice restores the body's theme classes, and after
each single toggle the persisted value matches the displayed theme —
`"dark"` exactly when the body carries the dark class. -/
theorem theme_toggle_roundtrip (s : ThemeState) (h : s.lightClass = !s.darkClass) :
    (darkToggleClick (darkToggleClick s)).darkClass = s.darkClass ∧
    (darkToggleClick (darkToggleClick s)).lightClass = s.lightClass ∧
    (darkToggleClick s).stored =
      some (if (darkToggleClick s).darkClass then "dark" else "light") ∧
    (darkToggleClick (darkToggleClick s)).stored =
      some (if (darkToggleClick (darkToggleClick s)).darkClass then "dark" else "light") := by
  cases hd : s.darkClass <;> simp_all [darkToggleClick, applyTheme]

theorem theme_toggle_roundtrip_witness :
    (darkToggleClick (darkToggleClick themeS0)).darkClass = themeS0.darkClass ∧
    (darkToggleClick (darkToggleClick themeS0)).lightClass = themeS0.lightClass ∧
    (darkToggleClick themeS0).stored =
      some (if (darkToggleClick themeS0).darkClass then "dark" else "light") ∧
    (darkToggleClick (darkToggleClick themeS0)).stored =
      some (if (darkToggleClick (darkToggleClick themeS0)).darkClass
        then "dark" else "light") :=
  theme_toggle_roundtrip themeS0 (by decide)

/-- C7, counterexample to the claim as stated: a persisted EMPTY string
exists in storage but is falsy, so `if (stored)` skips it and the
system preference wins instead of the stored value — the code differs
from the "first non-null provider wins" reading at `stored = some ""`,
`prefersDark = true`. -/
theorem themeInit_emptyStored_cex :
    themeInit (some "") true themeS0 ≠ themeInitFirstNonNull (some "") true themeS0 ∧
    (themeInit (some "") true themeS0).darkClass = true ∧
    (themeInitFirstNonNull (some "") true themeS0).darkClass = false := by
  decide

/-- C7, amended: providers are tried in fixed order and the first
TRUTHY (non-null and non-empty) result wins: a persisted non-empty
value is applied; otherwise dark if the system prefers dark; otherwise
light. -/
theorem themeInit_providers (stored : Option String) (pd : Bool) (s : ThemeState) :
    (jsTruthy stored = true → themeInit stored pd s = applyTheme (stored.getD "") s) ∧
    (jsTruthy stored = false → pd = true → themeInit stored pd s = applyTheme "dark" s) ∧
    (jsTruthy stored = false → pd = false → themeInit stored pd s = applyTheme "light" s) := by
  refine ⟨fun h1 => ?_, fun h1 h2 => ?_, fun h1 h2 => ?_⟩
  · simp [themeInit, h1]
  · simp [themeInit, h1, h2]
  · simp [themeInit, h1, h2]

theorem themeInit_providers_witness :
    themeInit (some "dark") false themeS0 = applyTheme ((some "dark").getD "") themeS0 ∧
    themeInit none true themeS0 = applyTheme "dark" themeS0 :=
  ⟨(themeInit_providers (some "dark") false themeS0).1 (by decide),
   (themeInit_providers none true themeS0).2.1 (by decide) rfl⟩

/-- C8: when validation fails the fields are untouched, only the
response text and colour change (to the failing rule's message in the
error colour), and no timer is scheduled; only on full success are the
fields reset, and the reset happens in the 900 ms-delayed state
together with the confirmation message. -/
theorem submit_reset_discipline (p : FormPage) :
    (∀ msg, formValidate (jsTrim p.name) (jsTrim p.email) (jsTrim p.message) = some msg →
      submitNow p = { p with respText := msg, respColor := errorColor } ∧
      submitTimer p = none) ∧
    (formValidate (jsTrim p.name) (jsTrim p.email) (jsTrim p.message) = none →
      (submitNow p).name = p.name ∧ (submitNow p).email = p.email ∧
      (submitNow p).message = p.message ∧ (submitNow p).respText = sendingText ∧
      submitTimer p = some (900, ⟨"", "", "", thanksText, accentColor⟩)) := by
  constructor
  · intro msg h
    constructor <;> simp [submitNow, submitTimer, h]
  · intro h
    refine ⟨?_, ?_, ?_, ?_, ?_⟩ <;> simp [submitNow, submitTimer, h]

theorem submit_reset_discipline_witness :
    (submitNow ⟨" ", "e@x.co", "hello there!", "", ""⟩ =
      { (⟨" ", "e@x.co", "hello there!", "", ""⟩ : FormPage) with
          respText := nameError, respColor := errorColor } ∧
      submitTimer ⟨" ", "e@x.co", "hello there!", "", ""⟩ = none) ∧
    submitTimer ⟨"Bob", "e@x.co", "hello there!", "", ""⟩ =
      some (900, ⟨"", "", "", thanksText, accentColor⟩) :=
  ⟨(submit_reset_discipline ⟨" ", "e@x.co", "hello there!", "", ""⟩).1
      nameError (by decide),
   ((submit_reset_discipline ⟨"Bob", "e@x.co", "hello there!", "", ""⟩).2
      (by decide)).2.2.2.2⟩

/-- C9: an element marked for reveal transitions at most once and never
back: running any event sequence from the initial observed state ends
in the revealed-and-unobserved state exactly when some intersecting
event occurred, appending further events after a reveal changes
nothing, and an element that never intersects stays unmarked. -/
theorem reveal_once_permanent (es es2 : List Bool) :
    revealRun revealInit es = (if true ∈ es then ⟨true, false⟩ else revealInit) ∧
    (true ∈ es → revealRun revealInit (es ++ es2) = ⟨true, false⟩) ∧
    (true ∉ es → (revealRun revealInit es).isVisible = false) := by
  refine ⟨reveal_run_eq es, fun h => ?_, fun h => ?_⟩
  · rw [reveal_run_append, reveal_run_eq es, if_pos h, reveal_frozen]
  · rw [reveal_run_eq es, if_neg h]
    rfl

theorem reveal_once_permanent_witness :
    revealRun revealInit ([false, true] ++ [true, false]) = ⟨true, false⟩ ∧
    (revealRun revealInit [false, false]).isVisible = false :=
  ⟨(reveal_once_permanent [false, true] [true, false]).2.1 (by decide),
   (reveal_once_permanent [false, false] []).2.2 (by decide)⟩

/-- C10, counterexample to the claim as stated: the empty string is a
storable value outside `{"light", "dark"}`, yet initializing with it
persisted (and the system preferring dark) yields the DARK theme and
overwrites storage with `"dark"` — because `if (stored)` treats `""`
as absent. -/
theorem applyTheme_corrupted_cex :
    ("" ≠ "light" ∧ "" ≠ "dark") ∧
    (themeInit (some "") true themeS0).darkClass = true ∧
    (themeInit (some "") true themeS0).lightClass = false ∧
    (themeInit (some "") true themeS0).stored = some "dark" := by
  decide

/-- C10, amended: `applyTheme(mode)` leaves exactly one theme class on
the body — dark iff `mode` is exactly `"dark"`, light for every other
string — and persists the raw `mode` verbatim; hence a stored
NON-EMPTY value outside `{"light", "dark"}` initializes the page to
the light theme and is written back unchanged (the empty string
instead falls through to the system preference). -/
theorem applyTheme_mode_classes (mode v : String) (pd : Bool) (s t : ThemeState) :
    ((applyTheme mode s).darkClass = true ↔ mode = "dark") ∧
    ((applyTheme mode s).lightClass = true ↔ mode ≠ "dark") ∧
    (applyTheme mode s).stored = some mode ∧
    (v ≠ "" → v ≠ "light" → v ≠ "dark" →
      (themeInit (some v) pd t).lightClass = true ∧
      (themeInit (some v) pd t).darkClass = false ∧
      (themeInit (some v) pd t).stored = some v) := by
  refine ⟨?_, ?_, ?_, fun hv1 hv2 hv3 => ?_⟩
  · by_cases hm : mode = "dark" <;> simp [applyTheme, hm]
  · by_cases hm : mode = "dark" <;> simp [applyTheme, hm]
  · by_cases hm : mode = "dark" <;> simp [applyTheme, hm]
  · have ht : jsTruthy (some v) = true := by simp [jsTruthy, hv1]
    refine ⟨?_, ?_, ?_⟩ <;> simp [themeInit, ht, applyTheme, hv3]

theorem applyTheme_mode_classes_witness :
    (themeInit (some "purple") true themeS0).lightClass = true ∧
    (themeInit (some "purple") true themeS0).darkClass = false ∧
    (themeInit (some "purple") true themeS0).stored = some "purple" :=
  (applyTheme_mode_classes "dark" "purple" true themeS0 themeS0).2.2.2
    (by decide) (by decide) (by decide)

end Noxal
